import Mathlib

/-!
Verification of the Minoc agent core against its specification.

The development shallowly embeds the TypeScript sources as executable Lean
definitions over `List Char` strings:

* `ToolExecutor.parseXmlToolCall` / `parseParameterValue`
  (src/packages/core/tools/tool_executor.ts),
* the `ChatEngine.llmLoop` driver (the chat-engine source file),
* `SecurityManager.checkCommand` / `checkTool` / `isDangerousPath` /
  `findMatchingPattern` (src/packages/core/permission/security_manager.ts),
* `PermissionManager.checkPermission` / `shouldRequireApproval`
  (src/core/permission/permission_manager.ts),
* `ApprovalManager.requestApproval`'s input dispatch (src/cli/ui/approval.ts),
* `OpenAIClient.chatCompletion` / `convertError` / `executeWithRetry`
  (src/packages/core/llm/openai_client.ts).

External collaborators of the code (the JavaScript `JSON.parse` builtin and
the `RegExp` engine) are passed in as function parameters; everything that is
the repository's own logic is translated directly.  JavaScript regular
expressions used by the code are deterministic under backtracking (every
quantifier is followed by a literal its character class excludes), so they are
embedded as the straightforward scanners below; `\w`, `\s`, `toLowerCase` and
`trim` are modelled on their ASCII fragments, which covers every string the
claims exercise.  All functions are total: the `Option` codomain of the codec
models the source's `null` result, and totality models its catch-all
`try/catch` (the codec never throws).
-/

namespace Minoc

abbrev Str := List Char

/-- JS regex `\w`: ASCII letters, digits, underscore. -/
def isWordChar (c : Char) : Bool := c.isAlphanum || c = '_'

/-- JS regex `\s` (ASCII fragment): space, tab, newline, CR, VT, FF. -/
def isSpaceChar (c : Char) : Bool :=
  c = ' ' || c = '\t' || c = '\n' || c = '\r' || c = '\x0b' || c = '\x0c'

/-- Strip a literal pattern from the front: `dropLit p s = some r` iff `s = p ++ r`. -/
def dropLit : Str → Str → Option Str
  | [], s => some s
  | _ :: _, [] => none
  | p :: ps, c :: cs => if c = p then dropLit ps cs else none

/-- Shortest-prefix split: scan left to right for the first suffix on which
`p` fires, returning the consumed prefix and `p`'s answer.  This is both the
semantics of a lazy `(.*?)` followed by the rest of a deterministic pattern
(`p`), and of the leftmost-match search performed by `String.prototype.match`. -/
def splitAtFirst {α : Type} (p : Str → Option α) : Str → Option (Str × α)
  | [] =>
    match p [] with
    | some a => some ([], a)
    | none => none
  | c :: cs =>
    match p (c :: cs) with
    | some a => some ([], a)
    | none =>
      match splitAtFirst p cs with
      | some (pre, a) => some (c :: pre, a)
      | none => none

/-- `String.prototype.includes`: `pat` occurs somewhere in the argument. -/
def containsSub (pat : Str) : Str → Bool
  | [] => (dropLit pat []).isSome
  | c :: cs => (dropLit pat (c :: cs)).isSome || containsSub pat cs

/-- ASCII `String.prototype.toLowerCase`. -/
def lowerL (s : Str) : Str := s.map Char.toLower

/-- ASCII `String.prototype.trim`. -/
def trimL (s : Str) : Str :=
  ((s.dropWhile isSpaceChar).reverse.dropWhile isSpaceChar).reverse

/-- `String.prototype.trim` lifted back to `String`. -/
def jsTrim (s : String) : String := String.mk (trimL s.toList)

/-- `p` fires on no suffix of `content ++ tail` strictly longer than `tail`.
Used as the (decidable) side condition under which a lazy `(.*?)` stops
exactly at the designated closing tag. -/
def earlyFireFree {α : Type} (p : Str → Option α) : Str → Str → Bool
  | [], _ => true
  | c :: cs, tail => (p (c :: (cs ++ tail))).isNone && earlyFireFree p cs tail

/-! ## Parameter values (`ToolExecutor.parseParameterValue`) -/

/-- A value produced by the external `JSON.parse` collaborator, identified by
its source text (its internal structure is never inspected by this code). -/
structure JsonLite where
  raw : String
deriving DecidableEq, Repr

/-- The external `JSON.parse` builtin: `none` models a parse failure (throw). -/
abbrev JsonParser := String → Option JsonLite

/-- A decoded parameter value (`unknown` on the TypeScript side).  A float is
identified by its decimal source text (its IEEE value is a builtin's
business); an entry of `vPathList ps` stands for the array of `\x7bpath\x7d`
records built for `read_files`. -/
inductive Value where
  | vStr (s : String)
  | vInt (n : Nat)
  | vFloat (digits : String)
  | vBool (b : Bool)
  | vJson (j : JsonLite)
  | vPathList (paths : List String)
deriving DecidableEq, Repr

/-- One pass of `value.replace(/\\c/g, r)` for an escape letter `c`:
left-to-right, non-overlapping. -/
def replEsc (t r : Char) : Str → Str
  | '\\' :: c :: rest =>
    if c = t then r :: replEsc t r rest else '\\' :: replEsc t r (c :: rest)
  | c :: rest => c :: replEsc t r rest
  | [] => []

/-- `value.replace(/\\n/g, '\n').replace(/\\t/g, '\t')`. -/
def unescapeNT (s : Str) : Str := replEsc 't' '\t' (replEsc 'n' '\n' s)

def headIs (c : Char) : Str → Bool
  | x :: _ => x = c
  | [] => false

def lastIs (c : Char) (s : Str) : Bool := headIs c s.reverse

/-- `(value.startsWith('\x7b') && value.endsWith('\x7d')) ||
(value.startsWith('[') && value.endsWith(']'))`. -/
def jsonShaped (u : Str) : Bool :=
  (headIs '\x7b' u && lastIs '\x7d' u) || (headIs '[' u && lastIs ']' u)

/-- `/^\d+$/.test value`. -/
def intShape (u : Str) : Bool := !u.isEmpty && u.all Char.isDigit

/-- `/^\d+\.\d+$/.test value` (the greedy `\d+` before the dot is
deterministic because a digit is never a dot). -/
def floatShape (u : Str) : Bool :=
  let d1 := u.takeWhile Char.isDigit
  match u.drop d1.length with
  | '.' :: rest => !d1.isEmpty && !rest.isEmpty && rest.all Char.isDigit
  | _ => false

/-- `parseInt(value, 10)` on an all-digit string. -/
def digitsToNat (s : Str) : Nat :=
  s.foldl (fun acc c => acc * 10 + (c.toNat - '0'.toNat)) 0

/-- `ToolExecutor.parseParameterValue` (tool_executor.ts). -/
def parseParameterValue (jp : JsonParser) (value : String) : Value :=
  let u := unescapeNT value.toList
  if jsonShaped u then
    match jp (String.mk u) with
    | some j => .vJson j
    | none => .vStr (String.mk u)
  else if intShape u then .vInt (digitsToNat u)
  else if floatShape u then .vFloat (String.mk u)
  else if lowerL u = "true".toList then .vBool true
  else if lowerL u = "false".toList then .vBool false
  else .vStr (String.mk u)

/-- First rule of a priority list that fires. -/
def firstSome {α β : Type} (f : α → Option β) : List α → Option β
  | [] => none
  | a :: l =>
    match f a with
    | some b => some b
    | none => firstSome f l

/-- The decoding rules in the priority order the spec states: JSON
object/array (with fallback to the literal string), integer, float,
case-insensitive boolean. -/
def paramRules (jp : JsonParser) : List (Str → Option Value) :=
  [ fun u =>
      if jsonShaped u then
        some (match jp (String.mk u) with
              | some j => .vJson j
              | none => .vStr (String.mk u))
      else none
  , fun u => if intShape u then some (.vInt (digitsToNat u)) else none
  , fun u => if floatShape u then some (.vFloat (String.mk u)) else none
  , fun u =>
      if lowerL u = "true".toList then some (.vBool true)
      else if lowerL u = "false".toList then some (.vBool false)
      else none ]

/-- The spec's wording of the decoder: unescape, then try the rules in
priority order, else keep the string. -/
def specParseParameterValue (jp : JsonParser) (value : String) : Value :=
  let u := unescapeNT value.toList
  (firstSome (fun r => r u) (paramRules jp)).getD (.vStr (String.mk u))

/-! ## The XML tool-call codec (`ToolExecutor.parseXmlToolCall`) -/

def openTC : Str := "<tool_call>".toList
def closeTC : Str := "</tool_call>".toList
def closeTag (name : Str) : Str := '<' :: '/' :: (name ++ ['>'])
def openPaths : Str := "<paths>".toList
def closePaths : Str := "</paths>".toList
def openPath : Str := "<path>".toList
def closePath : Str := "</path>".toList

/-- The tail of the main pattern after the lazy group:
`<\/\1>\s*<\/tool_call>`.  Returns the remainder after the whole pattern
(deterministic: `\s` never matches the `<` that must follow). -/
def closeCheck (name : Str) (s : Str) : Option Str :=
  match dropLit (closeTag name) s with
  | none => none
  | some r =>
    match dropLit closeTC (r.dropWhile isSpaceChar) with
    | none => none
    | some rest => some rest

/-- The full `/<tool_call>\s*<(\w+)>(.*?)<\/\1>\s*<\/tool_call>/s` pattern
anchored at the current position; yields the capture groups (name, inner). -/
def tryMatchAt (s : Str) : Option (Str × Str) :=
  match dropLit openTC s with
  | none => none
  | some r1 =>
    match r1.dropWhile isSpaceChar with
    | '<' :: r2 =>
      match r2.takeWhile isWordChar, r2.dropWhile isWordChar with
      | [], _ => none
      | name, '>' :: r3 =>
        match splitAtFirst (closeCheck name) r3 with
        | some (inner, _) => some (name, inner)
        | none => none
      | _, _ => none
    | _ => none

/-- `xmlContent.match(...)`: leftmost position where the pattern matches. -/
def findToolCall (s : Str) : Option (Str × Str) :=
  match splitAtFirst tryMatchAt s with
  | some (_, r) => some r
  | none => none

/-- One anchored attempt of the parameter pattern `/<(\w+)>(.*?)<\/\1>/gs`;
yields ((name, raw value), rest after the match). -/
def paramAt (s : Str) : Option ((Str × Str) × Str) :=
  match s with
  | '<' :: r1 =>
    (match r1.takeWhile isWordChar, r1.dropWhile isWordChar with
     | [], _ => none
     | name, '>' :: r2 =>
       match splitAtFirst (dropLit (closeTag name)) r2 with
       | some (content, rest) => some ((name, content), rest)
       | none => none
     | _, _ => none)
  | _ => none

/-- Leftmost parameter match. -/
def findParam (s : Str) : Option ((Str × Str) × Str) :=
  match splitAtFirst paramAt s with
  | some (_, r) => some r
  | none => none

/-- `parametersXml.matchAll(/<(\w+)>(.*?)<\/\1>/gs)`.  The fuel only bounds
the number of matches; each match consumes at least seven characters, so
`length + 1` fuel is always enough. -/
def allParams : Nat → Str → List (Str × Str)
  | 0, _ => []
  | fuel + 1, s =>
    match findParam s with
    | some ((n, v), rest) => (n, v) :: allParams fuel rest
    | none => []

/-- Group 1 of `parametersXml.match(/<paths>(.*?)<\/paths>/s)`. -/
def pathsGroup (s : Str) : Option Str :=
  match splitAtFirst (dropLit openPaths) s with
  | some (_, r) =>
    match splitAtFirst (dropLit closePaths) r with
    | some (g, _) => some g
    | none => none
  | none => none

/-- `pathsMatch[1].matchAll(/<path>(.*?)<\/path>/gs)` (group 1 of each). -/
def allPathTags : Nat → Str → List Str
  | 0, _ => []
  | fuel + 1, s =>
    match splitAtFirst (dropLit openPath) s with
    | some (_, r) =>
      match splitAtFirst (dropLit closePath) r with
      | some (content, rest) => content :: allPathTags fuel rest
      | none => []
    | none => []

/-- JS object property assignment `parameters[k] = v` on a key-ordered record. -/
def setParam (ps : List (String × Value)) (k : String) (v : Value) :
    List (String × Value) :=
  if ps.any (fun p => p.1 = k) then ps.map (fun p => if p.1 = k then (k, v) else p)
  else ps ++ [(k, v)]

structure ParsedToolCall where
  toolName : String
  parameters : List (String × Value)
deriving DecidableEq, Repr

/-- Parameter assembly of `parseXmlToolCall`: each extracted parameter is
trimmed; the `content` parameter keeps its raw trimmed text, every other one
is decoded with `parseParameterValue`; then the `read_files` special case
overwrites `paths` with the list of path records. -/
def assembleParams (jp : JsonParser) (toolName : String) (inner : Str) :
    List (String × Value) :=
  let base := (allParams (inner.length + 1) inner).foldl
    (fun ps nv =>
      let n := String.mk nv.1
      let raw := String.mk (trimL nv.2)
      setParam ps n (if n = "content" then .vStr raw else parseParameterValue jp raw))
    []
  if toolName = "read_files" && containsSub openPaths inner then
    match pathsGroup inner with
    | some g =>
      setParam base "paths"
        (.vPathList ((allPathTags (g.length + 1) g).map (fun p => String.mk (trimL p))))
    | none => base
  else base

/-- `ToolExecutor.parseXmlToolCall` (tool_executor.ts).  Total: the source's
catch-all `try/catch` and `null` results are the `none` branch. -/
def parseXmlToolCall (jp : JsonParser) (xmlContent : String) : Option ParsedToolCall :=
  match findToolCall xmlContent.toList with
  | some (name, inner) => some ⟨String.mk name, assembleParams jp (String.mk name) inner⟩
  | none => none

/-! ## The agent loop (`ChatEngine.llmLoop`) -/

/-- One match of `/<tool_call>[\s\S]*?<\/tool_call>/g`: the matched block and
the remainder the global search continues from. -/
def nextBlock (s : Str) : Option (Str × Str) :=
  match splitAtFirst (dropLit openTC) s with
  | some (_, afterOpen) =>
    match splitAtFirst (dropLit closeTC) afterOpen with
    | some (mid, rest) => some (openTC ++ mid ++ closeTC, rest)
    | none => none
  | none => none

def allBlocks : Nat → Str → List Str
  | 0, _ => []
  | fuel + 1, s =>
    match nextBlock s with
    | some (b, rest) => b :: allBlocks fuel rest
    | none => []

/-- `[...response.content.matchAll(/<tool_call>[\s\S]*?<\/tool_call>/g)]`. -/
def toolCallBlocks (content : String) : List Str :=
  allBlocks (content.length + 1) content.toList

/-- What one pass of `llmLoop`'s body does with the model's text.
`protocolViolation` appends the corrective "multiple tools" tool-response and
runs no tool; `parseFailed` is the silent `continue` after a `null` parse;
`noToolWarning` appends the "call a tool" warning. -/
inductive LoopAction where
  | protocolViolation
  | invoke (pc : ParsedToolCall)
  | parseFailed
  | noToolWarning
deriving DecidableEq, Repr

def loopStep (jp : JsonParser) (content : String) : LoopAction :=
  let blocks := toolCallBlocks content
  if 1 < blocks.length then .protocolViolation
  else
    match blocks with
    | [b] =>
      match parseXmlToolCall jp (String.mk b) with
      | some pc => .invoke pc
      | none => .parseFailed
    | _ => .noToolWarning

def maxIterations : Nat := 50

inductive TermKind where
  | respondSuccess
  | llmError
  | maxIterationsReached
deriving DecidableEq, Repr

structure LoopResult where
  iterations : Nat
  modelCalls : Nat
  warnedMaxIterations : Bool
  terminatedBy : TermKind
deriving DecidableEq, Repr

/-- The `while (iteration < maxIterations)` body of `llmLoop`.  `done` is the
number of completed iterations, the fuel is `maxIterations - done`; one model
call happens per iteration.  `responses n = none` models a rejected
`chatCompletion` promise (the `catch` that breaks the loop); `handleOk n pc`
is the boolean outcome of `handleToolCall` (permission, approval and
execution are the outer world for this loop). -/
def llmLoopGo (jp : JsonParser) (responses : Nat → Option String)
    (handleOk : Nat → ParsedToolCall → Bool) : Nat → Nat → Nat × TermKind
  | done, 0 => (done, .maxIterationsReached)
  | done, fuel + 1 =>
    match responses done with
    | none => (done + 1, .llmError)
    | some content =>
      match loopStep jp content with
      | .invoke pc =>
        if handleOk done pc && (pc.toolName == "respond_to_user") then
          (done + 1, .respondSuccess)
        else llmLoopGo jp responses handleOk (done + 1) fuel
      | _ => llmLoopGo jp responses handleOk (done + 1) fuel

/-- `ChatEngine.llmLoop` for one user turn. -/
def llmLoop (jp : JsonParser) (responses : Nat → Option String)
    (handleOk : Nat → ParsedToolCall → Bool) : LoopResult :=
  let r := llmLoopGo jp responses handleOk 0 maxIterations
  ⟨r.1, r.1, decide (maxIterations ≤ r.1), r.2⟩

/-! ## Security checks (`SecurityManager`) -/

inductive RiskLevel where
  | low
  | medium
  | high
deriving DecidableEq, Repr

structure SecurityCheckResult where
  allowed : Bool
  riskLevel : RiskLevel
  blockedReason : Option String := none
  warning : Option String := none
deriving DecidableEq, Repr

structure RiskLevelPatterns where
  high : List String
  medium : List String
  low : List String
deriving DecidableEq, Repr

structure SecuritySettings where
  enableBlocklist : Bool
  customBlocklist : List String
  riskLevels : RiskLevelPatterns
  showSecurityWarnings : Bool
deriving DecidableEq, Repr

/-- The external `RegExp` collaborator: compiling a pattern body with the `i`
flag either yields a test function or fails (`none`: the constructor threw). -/
abbrev RegexCompiler := String → Option (String → Bool)

def slashDelimited (p : String) : Bool :=
  headIs '/' p.toList && lastIs '/' p.toList

/-- `pattern.slice(1, -1)`. -/
def slashBody (p : String) : String := String.mk ((p.toList.drop 1).dropLast)

/-- `text.toLowerCase().includes(pattern.toLowerCase())`. -/
def substrMatch (text pattern : String) : Bool :=
  containsSub (lowerL pattern.toList) (lowerL text.toList)

/-- `SecurityManager.findMatchingPattern` (security_manager.ts): a pattern
delimited by slashes is tried as a case-insensitive regular expression whose
compile failure degrades it to the substring test; any other pattern is a
case-insensitive substring test. -/
def findMatchingPattern (rc : RegexCompiler) (text : String) :
    List String → Option String
  | [] => none
  | p :: ps =>
    if slashDelimited p then
      match rc (slashBody p) with
      | some test =>
        if test text then some p else findMatchingPattern rc text ps
      | none =>
        if substrMatch text p then some p else findMatchingPattern rc text ps
    else if substrMatch text p then some p else findMatchingPattern rc text ps

def allowLow : SecurityCheckResult := ⟨true, .low, none, none⟩

/-- `SecurityManager.checkCommand` (security_manager.ts). -/
def checkCommand (rc : RegexCompiler) (settings : SecuritySettings)
    (command : String) : SecurityCheckResult :=
  if !settings.enableBlocklist then allowLow
  else
    match findMatchingPattern rc command settings.riskLevels.high with
    | some p => ⟨false, .high, some ("高リスクコマンドが検出されました: " ++ p), none⟩
    | none =>
      match findMatchingPattern rc command settings.customBlocklist with
      | some p => ⟨false, .high, some ("カスタムブロックリストに該当します: " ++ p), none⟩
      | none =>
        match findMatchingPattern rc command settings.riskLevels.medium with
        | some p =>
          ⟨true, .medium, none,
            if settings.showSecurityWarnings then
              some ("中リスクコマンドが含まれています: " ++ p)
            else none⟩
        | none =>
          match findMatchingPattern rc command settings.riskLevels.low with
          | some _ => allowLow
          | none => allowLow

/-- The ordered tiers of `checkCommand` as the spec lists them, each paired
with the result it produces on a match. -/
def commandTiers (settings : SecuritySettings) :
    List (List String × (String → SecurityCheckResult)) :=
  [ (settings.riskLevels.high,
      fun p => ⟨false, .high, some ("高リスクコマンドが検出されました: " ++ p), none⟩)
  , (settings.customBlocklist,
      fun p => ⟨false, .high, some ("カスタムブロックリストに該当します: " ++ p), none⟩)
  , (settings.riskLevels.medium,
      fun p => ⟨true, .medium, none,
        if settings.showSecurityWarnings then
          some ("中リスクコマンドが含まれています: " ++ p)
        else none⟩)
  , (settings.riskLevels.low, fun _ => allowLow) ]

/-- The spec's wording of `checkCommand`: first tier that matches wins, the
default is allowed at low risk; disabled blocklist always allows at low risk. -/
def specCheckCommand (rc : RegexCompiler) (settings : SecuritySettings)
    (command : String) : SecurityCheckResult :=
  if settings.enableBlocklist then
    (firstSome
      (fun tier => (findMatchingPattern rc command tier.1).map tier.2)
      (commandTiers settings)).getD allowLow
  else allowLow

def dangerousPaths : List String :=
  ["/etc/", "/bin/", "/sbin/", "/usr/bin/", "/usr/sbin/", "/system/",
   "/windows/", "c:\\windows\\", "c:\\program files\\", "/boot/", "/dev/",
   "/proc/", "/sys/"]

def normalizeSlashes (s : Str) : Str :=
  s.map (fun c => if c = '\\' then '/' else c)

def startsWithL (pre s : Str) : Bool := (dropLit pre s).isSome

/-- `SecurityManager.isDangerousPath` (security_manager.ts). -/
def isDangerousPath (path : String) : Bool :=
  let normalizedPath := normalizeSlashes (lowerL path.toList)
  dangerousPaths.any (fun d => startsWithL d.toList normalizedPath)

/-- `parameters.x as string` followed by JS truthiness; the claims only
exercise string-valued parameters at these keys. -/
def truthyStringParam (params : List (String × Value)) (k : String) :
    Option String :=
  match params.lookup k with
  | some (.vStr s) => if s = "" then none else some s
  | _ => none

def mediumWith (settings : SecuritySettings) (w : String) : SecurityCheckResult :=
  ⟨true, .medium, none, if settings.showSecurityWarnings then some w else none⟩

/-- `SecurityManager.checkTool` (security_manager.ts). -/
def checkTool (rc : RegexCompiler) (settings : SecuritySettings)
    (toolName : String) (params : List (String × Value)) : SecurityCheckResult :=
  if toolName = "execute_command" then
    match truthyStringParam params "command" with
    | some command => checkCommand rc settings command
    | none => allowLow
  else if toolName = "write_to_file" then
    match truthyStringParam params "path" with
    | some path =>
      if isDangerousPath path then
        ⟨false, .high, some ("危険なファイルパスへの書き込みが検出されました: " ++ path), none⟩
      else mediumWith settings "ファイルの書き込み操作です"
    | none => mediumWith settings "ファイルの書き込み操作です"
  else if toolName = "create_directory" then
    match truthyStringParam params "path" with
    | some path =>
      if isDangerousPath path then
        ⟨false, .high, some ("危険なパスでのディレクトリ作成が検出されました: " ++ path), none⟩
      else mediumWith settings "ディレクトリの作成操作です"
    | none => mediumWith settings "ディレクトリの作成操作です"
  else if toolName = "read_file" then mediumWith settings "ファイルの読み込み操作です"
  else if toolName = "find_files_by_name" then mediumWith settings "ファイル名検索操作です"
  else if toolName = "search_content_in_files" then mediumWith settings "ファイル内容検索操作です"
  else if toolName = "list_directory" then allowLow
  else if toolName = "read_files" then mediumWith settings "複数ファイルの読み込み操作です"
  else allowLow

/-! ## Permission policy (`PermissionManager`) -/

inductive PermissionLevel where
  | strict
  | normal
  | permissive
deriving DecidableEq, Repr

structure PermissionSettings where
  permanentlyAllowed : List String
  autoReject : List String := []
  blockedCommands : List String := []
  permissionLevel : PermissionLevel
deriving DecidableEq, Repr

structure ToolCallRequest where
  toolName : String
  parameters : List (String × Value)
  requiresApproval : Option Bool := none
deriving DecidableEq, Repr

structure PermissionResult where
  allowed : Bool
  requiresApproval : Bool
  reason : Option String := none
  securityResult : SecurityCheckResult
deriving DecidableEq, Repr

/-- `PermissionManager.shouldRequireApproval` (permission_manager.ts). -/
def shouldRequireApproval (toolCall : ToolCallRequest)
    (settings : PermissionSettings)
    (securityResult : SecurityCheckResult) : Bool :=
  match toolCall.requiresApproval with
  | some true => true
  | some false => false
  | none =>
    match settings.permissionLevel with
    | .strict => true
    | .permissive => securityResult.riskLevel == .high
    | .normal =>
      securityResult.riskLevel == .medium || securityResult.riskLevel == .high

/-- `PermissionManager.checkPermission` (permission_manager.ts). -/
def checkPermission (rc : RegexCompiler) (psettings : PermissionSettings)
    (ssettings : SecuritySettings) (toolCall : ToolCallRequest) :
    PermissionResult :=
  let securityResult := checkTool rc ssettings toolCall.toolName toolCall.parameters
  if !securityResult.allowed then
    ⟨false, false, securityResult.blockedReason, securityResult⟩
  else if psettings.permanentlyAllowed.contains toolCall.toolName then
    ⟨true, false, none, securityResult⟩
  else
    ⟨true, shouldRequireApproval toolCall psettings securityResult, none,
      securityResult⟩

/-! ## Approval prompt (`ApprovalManager.requestApproval`) -/

inductive ApprovalChoice where
  | allow_once
  | allow_always
  | deny
deriving DecidableEq, Repr, Fintype

structure ApprovalResult where
  choice : ApprovalChoice
  remember : Bool
deriving DecidableEq, Repr

/-- One round of the prompt's `switch (input.trim())`: the mapping from an
input line to an outcome; `none` is the invalid-input branch, after which the
`while (true)` loop asks again. -/
def approvalDispatch (input : String) : Option ApprovalResult :=
  if jsTrim input = "1" then some ⟨.allow_once, false⟩
  else if jsTrim input = "2" then some ⟨.allow_always, true⟩
  else if jsTrim input = "3" then some ⟨.deny, false⟩
  else none

/-- Which choices make `ChatEngine.handleToolCall` call
`addToPermanentlyAllowed` (the only persistence on the approval path). -/
def persistsPermanentAllow : ApprovalChoice → Bool
  | .allow_always => true
  | _ => false

/-- Which choices make `handleToolCall` record a failure and skip execution. -/
def approvalDenies : ApprovalChoice → Bool
  | .deny => true
  | _ => false

/-! ## Resilient completion client (`OpenAIClient`) -/

inductive ErrType where
  | network
  | rate_limit
  | server
  | auth
  | unknown
deriving DecidableEq, Repr

structure ApiErrorS where
  type : ErrType
  message : String
  retryable : Bool
deriving DecidableEq, Repr

/-- A JavaScript thrown value as `convertError` discriminates it: a real
`Error` instance (message, possibly an HTTP `status` property), or a plain
object that is not an `Error` instance — in this code base always an
already-converted `ApiError` literal rethrown by `chatCompletion`. -/
inductive JsThrown where
  | jsError (message : String) (status : Option Nat)
  | apiObj (e : ApiErrorS)
deriving DecidableEq, Repr

/-- `OpenAIClient.convertError` (openai_client.ts). -/
def convertError : JsThrown → ApiErrorS
  | .jsError msg status =>
    if containsSub "空の応答".toList msg.toList then ⟨.server, msg, true⟩
    else
      match status with
      | some s =>
        if s = 429 then ⟨.rate_limit, "レート制限に達しました", true⟩
        else if s = 401 || s = 403 then ⟨.auth, "API認証に失敗しました", false⟩
        else if 500 ≤ s then ⟨.server, "サーバーエラーが発生しました", true⟩
        else if containsSub "fetch".toList msg.toList
             || containsSub "network".toList msg.toList then
          ⟨.network, "ネットワークエラーが発生しました", true⟩
        else ⟨.unknown, msg, false⟩
      | none =>
        if containsSub "fetch".toList msg.toList
           || containsSub "network".toList msg.toList then
          ⟨.network, "ネットワークエラーが発生しました", true⟩
        else ⟨.unknown, msg, false⟩
  | .apiObj _ => ⟨.unknown, "不明なエラーが発生しました", false⟩

deriving instance DecidableEq for Except

structure RetryConfig where
  maxRetries : Nat
  baseDelay : Nat
  maxDelay : Nat
deriving DecidableEq, Repr

def defaultRetryConfig : RetryConfig := ⟨3, 1000, 16000⟩

/-- The `for (attempt = 0; attempt <= maxRetries; ...)` loop of
`OpenAIClient.executeWithRetry`.  Also returns the list of backoff delays
waited between consecutive attempts.  The fuel-0 result models the
unreachable trailing `throw` after the loop. -/
def retryGo {α : Type} (cfg : RetryConfig) (op : Nat → Except JsThrown α) :
    Nat → Nat → List Nat → Except ApiErrorS α × List Nat
  | _, 0, delays => (.error ⟨.unknown, "リトライ回数を超過しました", false⟩, delays)
  | attempt, fuel + 1, delays =>
    match op attempt with
    | .ok v => (.ok v, delays)
    | .error e =>
      let apiError := convertError e
      if !apiError.retryable then (.error apiError, delays)
      else if attempt == cfg.maxRetries then (.error apiError, delays)
      else
        retryGo cfg op (attempt + 1) fuel
          (delays ++ [min (cfg.baseDelay * 2 ^ attempt) cfg.maxDelay])

def executeWithRetry {α : Type} (cfg : RetryConfig)
    (op : Nat → Except JsThrown α) : Except ApiErrorS α × List Nat :=
  retryGo cfg op 0 (cfg.maxRetries + 1) []

structure ChatResponse where
  content : String
  modelName : String
deriving DecidableEq, Repr

/-- What the transport (the OpenAI SDK call) does on one attempt. -/
inductive TransportOutcome where
  | ok (content : String) (modelName : String)
  | raise (e : JsThrown)
deriving DecidableEq, Repr

/-- One attempt of the closure inside `chatCompletion`: a blank completion
raises the empty-response `Error`; every raise is converted by the closure's
own `catch` into a plain `ApiError` object literal and rethrown — so what
reaches `executeWithRetry` is never an `Error` instance. -/
def chatAttempt (t : TransportOutcome) : Except JsThrown ChatResponse :=
  match t with
  | .ok content modelName =>
    if (trimL content.toList).isEmpty then
      .error (.apiObj (convertError (.jsError "空の応答を受信しました" none)))
    else .ok ⟨content, modelName⟩
  | .raise e => .error (.apiObj (convertError e))

/-- `OpenAIClient.chatCompletion` as wired: the per-attempt closure above run
under `executeWithRetry` with the default retry configuration. -/
def chatCompletion (transport : Nat → TransportOutcome) :
    Except ApiErrorS ChatResponse × List Nat :=
  executeWithRetry defaultRetryConfig (fun n => chatAttempt (transport n))

/-! ## Scanner metatheory -/

theorem dropLit_append (p r : Str) : dropLit p (p ++ r) = some r := by
  induction p with
  | nil => rfl
  | cons c cs ih => simp [dropLit, ih]

theorem splitAtFirst_here {α : Type} (p : Str → Option α) (s : Str) (a : α)
    (h : p s = some a) : splitAtFirst p s = some ([], a) := by
  cases s <;> simp [splitAtFirst, h]

theorem splitAtFirst_of_earlyFree {α : Type} (p : Str → Option α)
    (content tail : Str) (a : α) (hp : p tail = some a)
    (hf : earlyFireFree p content tail = true) :
    splitAtFirst p (content ++ tail) = some (content, a) := by
  induction content with
  | nil => simpa using splitAtFirst_here p tail a hp
  | cons c cs ih =>
    simp only [earlyFireFree, Bool.and_eq_true, Option.isNone_iff_eq_none] at hf
    simp [splitAtFirst, hf.1, ih hf.2]

theorem dropWhile_space_append (ws r2 : Str) (hw : ws.all isSpaceChar = true) :
    (ws ++ '<' :: r2).dropWhile isSpaceChar = '<' :: r2 := by
  induction ws with
  | nil =>
    have h : isSpaceChar '<' = false := by decide
    simp [List.dropWhile_cons, h]
  | cons c cs ih =>
    simp only [List.all_cons, Bool.and_eq_true] at hw
    simp [List.dropWhile_cons, hw.1, ih hw.2]

theorem takeWhile_word_append (name r : Str) (hn : name.all isWordChar = true) :
    (name ++ '>' :: r).takeWhile isWordChar = name := by
  induction name with
  | nil =>
    have h : isWordChar '>' = false := by decide
    simp [List.takeWhile_cons, h]
  | cons c cs ih =>
    simp only [List.all_cons, Bool.and_eq_true] at hn
    simp [List.takeWhile_cons, hn.1, ih hn.2]

theorem dropWhile_word_append (name r : Str) (hn : name.all isWordChar = true) :
    (name ++ '>' :: r).dropWhile isWordChar = '>' :: r := by
  induction name with
  | nil =>
    have h : isWordChar '>' = false := by decide
    simp [List.dropWhile_cons, h]
  | cons c cs ih =>
    simp only [List.all_cons, Bool.and_eq_true] at hn
    simp [List.dropWhile_cons, hn.1, ih hn.2]

theorem closeCheck_at_close (name ws2 post : Str)
    (hw : ws2.all isSpaceChar = true) :
    closeCheck name (closeTag name ++ (ws2 ++ (closeTC ++ post))) = some post := by
  have hc : closeTC ++ post = '<' :: ("/tool_call>".toList ++ post) := by
    have : closeTC = '<' :: "/tool_call>".toList := by decide
    rw [this]; rfl
  have h2 : (ws2 ++ (closeTC ++ post)).dropWhile isSpaceChar = closeTC ++ post := by
    rw [hc, dropWhile_space_append ws2 _ hw]
  simp [closeCheck, dropLit_append, h2]

/-- A well-formed single tool-call block (with arbitrary trailing text). -/
def mkBlockL (ws1 name inner ws2 post : Str) : Str :=
  openTC ++ (ws1 ++ ('<' :: (name ++ ('>' ::
    (inner ++ (closeTag name ++ (ws2 ++ (closeTC ++ post))))))))

theorem tryMatchAt_wellformed (ws1 name inner ws2 post : Str)
    (hw1 : ws1.all isSpaceChar = true) (hne : name ≠ [])
    (hnw : name.all isWordChar = true) (hw2 : ws2.all isSpaceChar = true)
    (hfree : earlyFireFree (closeCheck name) inner
      (closeTag name ++ (ws2 ++ (closeTC ++ post))) = true) :
    tryMatchAt (mkBlockL ws1 name inner ws2 post) = some (name, inner) := by
  obtain ⟨c, cs, rfl⟩ : ∃ c cs, name = c :: cs := by
    cases name with
    | nil => exact absurd rfl hne
    | cons c cs => exact ⟨c, cs, rfl⟩
  have hsplit := splitAtFirst_of_earlyFree (closeCheck (c :: cs)) inner
    (closeTag (c :: cs) ++ (ws2 ++ (closeTC ++ post))) post
    (closeCheck_at_close (c :: cs) ws2 post hw2) hfree
  unfold tryMatchAt mkBlockL
  simp only [dropLit_append, dropWhile_space_append _ _ hw1,
    takeWhile_word_append _ _ hnw, dropWhile_word_append _ _ hnw, hsplit]

theorem findToolCall_wellformed (ws1 name inner ws2 post : Str)
    (hw1 : ws1.all isSpaceChar = true) (hne : name ≠ [])
    (hnw : name.all isWordChar = true) (hw2 : ws2.all isSpaceChar = true)
    (hfree : earlyFireFree (closeCheck name) inner
      (closeTag name ++ (ws2 ++ (closeTC ++ post))) = true) :
    findToolCall (mkBlockL ws1 name inner ws2 post) = some (name, inner) := by
  unfold findToolCall
  rw [splitAtFirst_here tryMatchAt _ _
    (tryMatchAt_wellformed ws1 name inner ws2 post hw1 hne hnw hw2 hfree)]

theorem parseXmlToolCall_wellformed (jp : JsonParser)
    (ws1 name inner ws2 post : Str)
    (hw1 : ws1.all isSpaceChar = true) (hne : name ≠ [])
    (hnw : name.all isWordChar = true) (hw2 : ws2.all isSpaceChar = true)
    (hfree : earlyFireFree (closeCheck name) inner
      (closeTag name ++ (ws2 ++ (closeTC ++ post))) = true) :
    parseXmlToolCall jp (String.mk (mkBlockL ws1 name inner ws2 post)) =
      some ⟨String.mk name, assembleParams jp (String.mk name) inner⟩ := by
  unfold parseXmlToolCall
  rw [show (String.mk (mkBlockL ws1 name inner ws2 post)).toList
      = mkBlockL ws1 name inner ws2 post from rfl,
    findToolCall_wellformed ws1 name inner ws2 post hw1 hne hnw hw2 hfree]

theorem tryMatchAt_none_of_no_open (s : Str)
    (h : (dropLit openTC s).isSome = false) : tryMatchAt s = none := by
  have hd : dropLit openTC s = none := by
    cases hq : dropLit openTC s with
    | none => rfl
    | some r => simp [hq] at h
  unfold tryMatchAt
  rw [hd]

theorem tryMatchAt_search_none_of_no_open (s : Str)
    (h : containsSub openTC s = false) : splitAtFirst tryMatchAt s = none := by
  induction s with
  | nil =>
    simp only [containsSub] at h
    simp [splitAtFirst, tryMatchAt_none_of_no_open [] h]
  | cons c cs ih =>
    simp only [containsSub, Bool.or_eq_false_iff] at h
    simp [splitAtFirst, tryMatchAt_none_of_no_open _ h.1, ih h.2]

theorem parseXmlToolCall_none_of_no_tag (jp : JsonParser) (xml : String)
    (h : containsSub openTC xml.toList = false) :
    parseXmlToolCall jp xml = none := by
  unfold parseXmlToolCall findToolCall
  rw [tryMatchAt_search_none_of_no_open xml.toList h]

/-- A well-formed parameter element `<q>v</q>`. -/
def paramBlockL (q v : Str) : Str := '<' :: (q ++ ('>' :: (v ++ closeTag q)))

theorem paramAt_wellformed (q v : Str) (hne : q ≠ [])
    (hq : q.all isWordChar = true)
    (hfree : earlyFireFree (dropLit (closeTag q)) v (closeTag q) = true) :
    paramAt (paramBlockL q v) = some ((q, v), []) := by
  obtain ⟨c, cs, rfl⟩ : ∃ c cs, q = c :: cs := by
    cases q with
    | nil => exact absurd rfl hne
    | cons c cs => exact ⟨c, cs, rfl⟩
  have hp : dropLit (closeTag (c :: cs)) (closeTag (c :: cs)) = some [] := by
    simpa using dropLit_append (closeTag (c :: cs)) []
  have hsplit := splitAtFirst_of_earlyFree (dropLit (closeTag (c :: cs))) v
    (closeTag (c :: cs)) [] hp hfree
  unfold paramAt paramBlockL
  simp only [takeWhile_word_append _ _ hq, dropWhile_word_append _ _ hq, hsplit]

theorem findParam_wellformed (q v : Str) (hne : q ≠ [])
    (hq : q.all isWordChar = true)
    (hfree : earlyFireFree (dropLit (closeTag q)) v (closeTag q) = true) :
    findParam (paramBlockL q v) = some ((q, v), []) := by
  unfold findParam
  rw [splitAtFirst_here paramAt _ _ (paramAt_wellformed q v hne hq hfree)]

theorem allParams_nil (fuel : Nat) : allParams fuel [] = [] := by
  cases fuel with
  | zero => rfl
  | succ n =>
    have h : findParam [] = none := by decide
    simp [allParams, h]

theorem allParams_single (q v : Str) (fuel : Nat) (hne : q ≠ [])
    (hq : q.all isWordChar = true)
    (hfree : earlyFireFree (dropLit (closeTag q)) v (closeTag q) = true) :
    allParams (fuel + 1) (paramBlockL q v) = [(q, v)] := by
  simp [allParams, findParam_wellformed q v hne hq hfree, allParams_nil]

theorem assembleParams_single (jp : JsonParser) (toolName : String) (q v : Str)
    (hne : q ≠ []) (hq : q.all isWordChar = true)
    (hfree : earlyFireFree (dropLit (closeTag q)) v (closeTag q) = true)
    (hnp : (toolName = "read_files"
            && containsSub openPaths (paramBlockL q v)) = false) :
    assembleParams jp toolName (paramBlockL q v) =
      [(String.mk q,
        if String.mk q = "content" then .vStr (String.mk (trimL v))
        else parseParameterValue jp (String.mk (trimL v)))] := by
  unfold assembleParams
  rw [allParams_single q v (paramBlockL q v).length hne hq hfree]
  simp [hnp, setParam]

/-! ## Loop metatheory -/

theorem loopStep_of_two_blocks (jp : JsonParser) (content : String)
    (h : 2 ≤ (toolCallBlocks content).length) :
    loopStep jp content = .protocolViolation := by
  have h1 : 1 < (toolCallBlocks content).length := h
  simp [loopStep, h1]

theorem llmLoopGo_le (jp : JsonParser) (responses : Nat → Option String)
    (handleOk : Nat → ParsedToolCall → Bool) (fuel : Nat) :
    ∀ done, (llmLoopGo jp responses handleOk done fuel).1 ≤ done + fuel := by
  induction fuel with
  | zero => intro done; simp [llmLoopGo]
  | succ n ih =>
    intro done
    unfold llmLoopGo
    split
    · show done + 1 ≤ done + (n + 1)
      omega
    · split
      · split
        · show done + 1 ≤ done + (n + 1)
          omega
        · have := ih (done + 1); omega
      · have := ih (done + 1); omega

theorem llmLoopGo_exhausts (jp : JsonParser) (responses : Nat → Option String)
    (handleOk : Nat → ParsedToolCall → Bool)
    (hresp : ∀ n, (responses n).isSome = true)
    (hno : ∀ n pc, (handleOk n pc && (pc.toolName == "respond_to_user")) = false)
    (fuel : Nat) : ∀ done,
    llmLoopGo jp responses handleOk done fuel = (done + fuel, .maxIterationsReached) := by
  induction fuel with
  | zero => intro done; simp [llmLoopGo]
  | succ n ih =>
    intro done
    obtain ⟨content, hc⟩ := Option.isSome_iff_exists.mp (hresp done)
    have harith : done + 1 + n = done + (n + 1) := by omega
    unfold llmLoopGo
    simp only [hc]
    cases hs : loopStep jp content with
    | invoke pc =>
      simp only [hs, hno done pc, Bool.false_eq_true, if_false, ih (done + 1), harith]
    | protocolViolation => simp only [hs, ih (done + 1), harith]
    | parseFailed => simp only [hs, ih (done + 1), harith]
    | noToolWarning => simp only [hs, ih (done + 1), harith]

theorem llmLoopGo_stops_on_respond (jp : JsonParser)
    (responses : Nat → Option String) (handleOk : Nat → ParsedToolCall → Bool)
    (done fuel : Nat) (content : String) (pc : ParsedToolCall)
    (hr : responses done = some content) (hs : loopStep jp content = .invoke pc)
    (hb : (handleOk done pc && (pc.toolName == "respond_to_user")) = true) :
    llmLoopGo jp responses handleOk done (fuel + 1) = (done + 1, .respondSuccess) := by
  unfold llmLoopGo
  rw [hr]
  simp only [hs, hb, if_true]

/-! ## Spec-mirror equivalences -/

theorem slash_wrap_toList (body : String) :
    ("/" ++ body ++ "/").toList = '/' :: (body.toList ++ ['/']) := by
  have h1 : ("/" ++ body ++ "/").toList = "/".toList ++ body.toList ++ "/".toList := by
    simp [String.toList, String.data_append]
  rw [h1]
  rfl

theorem slashDelimited_wrap (body : String) :
    slashDelimited ("/" ++ body ++ "/") = true := by
  unfold slashDelimited
  rw [slash_wrap_toList]
  simp [headIs, lastIs, List.reverse_append]

theorem slashBody_wrap (body : String) : slashBody ("/" ++ body ++ "/") = body := by
  unfold slashBody
  rw [slash_wrap_toList]
  simp [List.dropLast_append_of_ne_nil]

theorem parseParameterValue_eq_spec (jp : JsonParser) (value : String) :
    parseParameterValue jp value = specParseParameterValue jp value := by
  unfold parseParameterValue specParseParameterValue paramRules
  simp only [firstSome]
  split_ifs <;> simp

theorem checkCommand_eq_spec (rc : RegexCompiler) (s : SecuritySettings)
    (cmd : String) : checkCommand rc s cmd = specCheckCommand rc s cmd := by
  unfold checkCommand specCheckCommand commandTiers
  by_cases he : s.enableBlocklist
  · simp only [he, Bool.not_true, Bool.false_eq_true, if_false, if_true, firstSome]
    cases h1 : findMatchingPattern rc cmd s.riskLevels.high <;>
      cases h2 : findMatchingPattern rc cmd s.customBlocklist <;>
        cases h3 : findMatchingPattern rc cmd s.riskLevels.medium <;>
          cases h4 : findMatchingPattern rc cmd s.riskLevels.low <;>
            simp [h1, h2, h3, h4]
  · simp [he]

/-! ## Concrete fixtures shared by witnesses and counterexamples -/

def jpNone : JsonParser := fun _ => none

def rcNone : RegexCompiler := fun _ => none

def ssPlain : SecuritySettings := ⟨true, [], ⟨[], [], []⟩, true⟩

/-! ## Claims -/

/-- C1: The codec returns at most one invocation (its codomain is one
optional invocation).  On a well-formed text consisting of a single
`<tool_call>` block it returns exactly the enclosed tool name and the
parameters assembled from the enclosed elements; on text with no
`<tool_call>` tag it returns no invocation (and, being total, never throws);
when a turn contains two or more top-level blocks the loop body takes the
protocol-violation branch — it appends the corrective tool-response, executes
no tool, and never observes a parsed invocation; and parsing the same text
twice yields equal invocations. -/
theorem toolcall_codec_single_invocation :
    (∀ (jp : JsonParser) (ws1 name inner ws2 post : Str),
       ws1.all isSpaceChar = true → name ≠ [] → name.all isWordChar = true →
       ws2.all isSpaceChar = true →
       earlyFireFree (closeCheck name) inner
         (closeTag name ++ (ws2 ++ (closeTC ++ post))) = true →
       parseXmlToolCall jp (String.mk (mkBlockL ws1 name inner ws2 post)) =
         some ⟨String.mk name, assembleParams jp (String.mk name) inner⟩)
  ∧ (∀ (jp : JsonParser) (xml : String), containsSub openTC xml.toList = false →
       parseXmlToolCall jp xml = none)
  ∧ (∀ (jp : JsonParser) (content : String),
       2 ≤ (toolCallBlocks content).length →
       loopStep jp content = .protocolViolation
       ∧ ∀ pc, loopStep jp content ≠ .invoke pc)
  ∧ (∀ (jp : JsonParser) (xml : String),
       parseXmlToolCall jp xml = parseXmlToolCall jp xml) := by
  refine ⟨parseXmlToolCall_wellformed, parseXmlToolCall_none_of_no_tag,
    fun jp content h => ⟨loopStep_of_two_blocks jp content h, fun pc hc => ?_⟩,
    fun _ _ => rfl⟩
  rw [loopStep_of_two_blocks jp content h] at hc
  exact LoopAction.noConfusion hc

theorem toolcall_codec_single_invocation_witness :
    parseXmlToolCall jpNone (String.mk (mkBlockL [] "write_to_file".toList
        (paramBlockL "path".toList "/tmp/a.txt".toList) [] [])) =
      some ⟨String.mk "write_to_file".toList,
        assembleParams jpNone (String.mk "write_to_file".toList)
          (paramBlockL "path".toList "/tmp/a.txt".toList)⟩
  ∧ parseXmlToolCall jpNone "hello" = none
  ∧ loopStep jpNone
      "<tool_call><a></a></tool_call><tool_call><b></b></tool_call>" =
      .protocolViolation := by
  refine ⟨?_, ?_, ?_⟩
  · exact toolcall_codec_single_invocation.1 jpNone [] _ _ [] []
      (by decide) (by decide) (by decide) (by decide) (by decide)
  · exact toolcall_codec_single_invocation.2.1 jpNone "hello" (by decide)
  · exact (toolcall_codec_single_invocation.2.2.1 jpNone _ (by decide)).1

/-- C2: a security denial short-circuits `checkPermission` to
not-allowed with no approval, carrying the blocked reason (never offered for
approval); and under arbitrary permission and security settings — hence for
every permission level — a `write_to_file` call whose path is `/etc/passwd`
is denied as high risk. -/
theorem security_denial_short_circuits :
    (∀ (rc : RegexCompiler) (ps : PermissionSettings) (ss : SecuritySettings)
        (tc : ToolCallRequest),
       (checkTool rc ss tc.toolName tc.parameters).allowed = false →
       checkPermission rc ps ss tc =
         ⟨false, false, (checkTool rc ss tc.toolName tc.parameters).blockedReason,
          checkTool rc ss tc.toolName tc.parameters⟩)
  ∧ (∀ (rc : RegexCompiler) (ps : PermissionSettings) (ss : SecuritySettings),
       checkPermission rc ps ss
         ⟨"write_to_file", [("path", .vStr "/etc/passwd")], none⟩ =
         ⟨false, false,
          some "危険なファイルパスへの書き込みが検出されました: /etc/passwd",
          ⟨false, .high,
           some "危険なファイルパスへの書き込みが検出されました: /etc/passwd",
           none⟩⟩) := by
  constructor
  · intro rc ps ss tc h
    unfold checkPermission
    simp [h]
  · intro rc ps ss
    have hct : checkTool rc ss "write_to_file" [("path", Value.vStr "/etc/passwd")] =
        ⟨false, .high,
         some "危険なファイルパスへの書き込みが検出されました: /etc/passwd", none⟩ := rfl
    unfold checkPermission
    simp [hct]

theorem security_denial_short_circuits_witness :
    checkPermission rcNone ⟨["write_to_file"], [], [], .strict⟩ ssPlain
      ⟨"write_to_file", [("path", .vStr "/etc/passwd")], none⟩ =
      ⟨false, false,
       some "危険なファイルパスへの書き込みが検出されました: /etc/passwd",
       ⟨false, .high,
        some "危険なファイルパスへの書き込みが検出されました: /etc/passwd", none⟩⟩ :=
  (security_denial_short_circuits.1 rcNone ⟨["write_to_file"], [], [], .strict⟩
    ssPlain ⟨"write_to_file", [("path", .vStr "/etc/passwd")], none⟩
    (by decide)).trans (by decide)

/-- C3 counterexample: `write_to_file` sits in the permanently-allowed set
and the security check assigns risk level high to the call on `/etc/passwd`,
yet `checkPermission` returns not-allowed — the security denial precedes the
permanently-allowed check, so permanent allowance does not decide the call
"regardless of the risk level the security check assigns". -/
theorem permanent_allow_overridden_by_denial :
    (PermissionSettings.permanentlyAllowed
      ⟨["write_to_file"], [], [], .permissive⟩).contains "write_to_file" = true
  ∧ (checkTool rcNone ssPlain "write_to_file"
      [("path", .vStr "/etc/passwd")]).riskLevel = .high
  ∧ (checkPermission rcNone ⟨["write_to_file"], [], [], .permissive⟩ ssPlain
      ⟨"write_to_file", [("path", .vStr "/etc/passwd")], none⟩).allowed = false := by
  refine ⟨by decide, by decide, by decide⟩

/-- C3 (amended): for every tool call that passes the security check and
whose name is in the permanently-allowed set, `checkPermission` returns
allowed with no approval required, regardless of the configured permission
level and of the risk level the security check assigned. -/
theorem permanent_allow_auto_allows (rc : RegexCompiler)
    (ps : PermissionSettings) (ss : SecuritySettings) (tc : ToolCallRequest)
    (hsec : (checkTool rc ss tc.toolName tc.parameters).allowed = true)
    (hmem : ps.permanentlyAllowed.contains tc.toolName = true) :
    checkPermission rc ps ss tc =
      ⟨true, false, none, checkTool rc ss tc.toolName tc.parameters⟩ := by
  unfold checkPermission
  simp [hsec, hmem]
  intro hnot
  simp at hmem
  exact absurd hmem hnot

theorem permanent_allow_auto_allows_witness :
    checkPermission rcNone ⟨["read_file"], [], [], .strict⟩ ssPlain
      ⟨"read_file", [], none⟩ =
      ⟨true, false, none, ⟨true, .medium, none, some "ファイルの読み込み操作です"⟩⟩ :=
  (permanent_allow_auto_allows rcNone ⟨["read_file"], [], [], .strict⟩ ssPlain
    ⟨"read_file", [], none⟩ (by decide) (by decide)).trans (by decide)

/-- C4: for a call that passes the security check and is not permanently
allowed, the approval requirement follows the precedence: an explicit
per-call flag decides first; otherwise strict requires approval for
everything, permissive only for high risk, and normal for medium-or-high
risk (and the call stays allowed). -/
theorem approval_requirement_precedence (rc : RegexCompiler)
    (ps : PermissionSettings) (ss : SecuritySettings) (tc : ToolCallRequest)
    (hsec : (checkTool rc ss tc.toolName tc.parameters).allowed = true)
    (hmem : ps.permanentlyAllowed.contains tc.toolName = false) :
    checkPermission rc ps ss tc =
      ⟨true,
       (match tc.requiresApproval with
        | some b => b
        | none =>
          match ps.permissionLevel with
          | .strict => true
          | .permissive =>
            (checkTool rc ss tc.toolName tc.parameters).riskLevel == .high
          | .normal =>
            (checkTool rc ss tc.toolName tc.parameters).riskLevel == .medium
            || (checkTool rc ss tc.toolName tc.parameters).riskLevel == .high),
       none, checkTool rc ss tc.toolName tc.parameters⟩ := by
  unfold checkPermission shouldRequireApproval
  simp only [hsec, hmem, Bool.not_true, Bool.false_eq_true, if_false]
  cases tc.requiresApproval with
  | some b => cases b <;> simp
  | none => cases ps.permissionLevel <;> simp

theorem approval_requirement_precedence_witness :
    checkPermission rcNone ⟨[], [], [], .normal⟩ ssPlain ⟨"read_file", [], none⟩ =
      ⟨true, true, none, ⟨true, .medium, none, some "ファイルの読み込み操作です"⟩⟩ :=
  (approval_requirement_precedence rcNone ⟨[], [], [], .normal⟩ ssPlain
    ⟨"read_file", [], none⟩ (by decide) (by decide)).trans (by decide)

/-- C5 (code bug): as wired, `chatCompletion` performs zero retries and
waits for no backoff delay on any raised transport error and on an empty
completion: the closure's own `catch` has already converted the thrown value
into a plain `ApiError` object literal, `executeWithRetry`'s second
`convertError` classifies any non-`Error` value as unknown/non-retryable,
and the loop aborts on the first attempt.  Yet `convertError` itself
classifies HTTP 429 as a retryable rate limit, and `executeWithRetry` run on
genuine `Error` throws does retry on the claimed 1000/2000/4000 ms schedule —
the schedule the claim describes is in the code but unreachable through
`chatCompletion`. -/
theorem chatCompletion_aborts_without_retry :
    (∀ e : JsThrown,
       chatCompletion (fun _ => .raise e) =
         (.error ⟨.unknown, "不明なエラーが発生しました", false⟩, []))
  ∧ convertError (.jsError "Too Many Requests" (some 429)) =
      ⟨.rate_limit, "レート制限に達しました", true⟩
  ∧ chatCompletion (fun _ => .ok "" "gpt-4") =
      (.error ⟨.unknown, "不明なエラーが発生しました", false⟩, [])
  ∧ executeWithRetry defaultRetryConfig
      (fun _ => (.error (.jsError "boom" (some 500)) : Except JsThrown Nat)) =
      (.error ⟨.server, "サーバーエラーが発生しました", true⟩, [1000, 2000, 4000]) := by
  refine ⟨fun e => rfl, by decide, by decide, by decide⟩

/-- C6: `checkCommand` matches the spec's ordered tiers (high-risk deny,
custom blocklist deny, medium allow with optional warning, low allow,
default allow/low); a disabled blocklist always allows at low risk; a plain
pattern such as `ABC` is a case-insensitive substring test; a slash-delimited
pattern is tried as a case-insensitive regular expression and degrades to the
substring test when compilation fails. -/
theorem checkCommand_tier_order :
    (∀ (rc : RegexCompiler) (s : SecuritySettings) (cmd : String),
       checkCommand rc s cmd = specCheckCommand rc s cmd)
  ∧ (∀ (rc : RegexCompiler) (cb : List String) (rl : RiskLevelPatterns)
       (w : Bool) (cmd : String),
       checkCommand rc ⟨false, cb, rl, w⟩ cmd = allowLow)
  ∧ (∀ (rc : RegexCompiler) (text : String) (ps : List String),
       findMatchingPattern rc text ("ABC" :: ps) =
         if substrMatch text "ABC" then some "ABC"
         else findMatchingPattern rc text ps)
  ∧ (∀ text : String, substrMatch text "ABC" = substrMatch text "abc")
  ∧ (∀ (rc : RegexCompiler) (text body : String) (ps : List String),
       findMatchingPattern rc text (("/" ++ body ++ "/") :: ps) =
         match rc body with
         | some test =>
           if test text then some ("/" ++ body ++ "/")
           else findMatchingPattern rc text ps
         | none =>
           if substrMatch text ("/" ++ body ++ "/") then some ("/" ++ body ++ "/")
           else findMatchingPattern rc text ps) := by
  refine ⟨checkCommand_eq_spec, ?_, ?_, ?_, ?_⟩
  · intro rc cb rl w cmd
    simp [checkCommand]
  · intro rc text ps
    have h : slashDelimited "ABC" = false := by decide
    simp only [findMatchingPattern, h, Bool.false_eq_true, if_false]
  · intro text
    have h : lowerL "ABC".toList = lowerL "abc".toList := by decide
    unfold substrMatch
    rw [h]
  · intro rc text body ps
    simp only [findMatchingPattern, slashDelimited_wrap, slashBody_wrap, if_true]

/-- C7: each parameter value is decoded by the spec's priority order — JSON
object/array shape (falling back to the literal string when the external
parse fails), all-digit integer, digits-dot-digits float, case-insensitive
boolean, else string — all applied after replacing literal backslash-n and
backslash-t with real newline and tab. -/
theorem parseParameterValue_priority_order (jp : JsonParser) (value : String) :
    parseParameterValue jp value = specParseParameterValue jp value := by
  unfold parseParameterValue specParseParameterValue paramRules
  simp only [firstSome]
  split_ifs <;> simp

/-- C8 counterexample: the approval prompt offers exactly three outcomes, not
four — the choice type has three inhabitants (there is no deny-always), and
the extra input "4" is invalid and only re-asks. -/
theorem approval_not_four_outcomes :
    Fintype.card ApprovalChoice = 3 ∧ approvalDispatch "4" = none := by
  constructor
  · decide
  · decide

/-- C8 (amended): the prompt offers three outcomes — allow-once with no
persistence, allow-always which persists the tool name to the
permanently-allowed set, and deny with no persistence — and any other input
causes the prompt to re-ask without returning (dispatch yields nothing and
the `while (true)` loop repeats). -/
theorem approval_three_outcomes :
    approvalDispatch "1" = some ⟨.allow_once, false⟩
  ∧ approvalDispatch "2" = some ⟨.allow_always, true⟩
  ∧ approvalDispatch "3" = some ⟨.deny, false⟩
  ∧ (∀ (input : String) (r : ApprovalResult), approvalDispatch input = some r →
       r = ⟨.allow_once, false⟩ ∨ r = ⟨.allow_always, true⟩ ∨ r = ⟨.deny, false⟩)
  ∧ (∀ c : ApprovalChoice, persistsPermanentAllow c = (c == .allow_always))
  ∧ (∀ c : ApprovalChoice, approvalDenies c = (c == .deny)) := by
  refine ⟨by decide, by decide, by decide, ?_, fun c => by cases c <;> rfl,
    fun c => by cases c <;> rfl⟩
  intro input r h
  unfold approvalDispatch at h
  split_ifs at h
  · exact Or.inl (Option.some.inj h).symm
  · exact Or.inr (Or.inl (Option.some.inj h).symm)
  · exact Or.inr (Or.inr (Option.some.inj h).symm)

theorem approval_three_outcomes_witness :
    (⟨.allow_always, true⟩ : ApprovalResult) = ⟨.allow_once, false⟩
  ∨ (⟨.allow_always, true⟩ : ApprovalResult) = ⟨.allow_always, true⟩
  ∨ (⟨.allow_always, true⟩ : ApprovalResult) = ⟨.deny, false⟩ :=
  approval_three_outcomes.2.2.2.1 " 2 " ⟨.allow_always, true⟩ (by decide)

/-- C9: the loop executes at most 50 iterations per turn and makes exactly
one model call per iteration; if every model call succeeds and
`respond_to_user` never executes successfully, the loop runs all 50
iterations and ends with the max-iterations warning (a value, not an
exception or divergence); and an iteration in which `respond_to_user`
executes successfully terminates the loop at once. -/
theorem llmLoop_iteration_cap :
    (∀ (jp : JsonParser) (responses : Nat → Option String)
       (handleOk : Nat → ParsedToolCall → Bool),
       (llmLoop jp responses handleOk).iterations ≤ maxIterations
       ∧ (llmLoop jp responses handleOk).modelCalls =
           (llmLoop jp responses handleOk).iterations)
  ∧ (∀ (jp : JsonParser) (responses : Nat → Option String)
       (handleOk : Nat → ParsedToolCall → Bool),
       (∀ n, (responses n).isSome = true) →
       (∀ n pc, (handleOk n pc && (pc.toolName == "respond_to_user")) = false) →
       llmLoop jp responses handleOk =
         ⟨maxIterations, maxIterations, true, .maxIterationsReached⟩)
  ∧ (∀ (jp : JsonParser) (responses : Nat → Option String)
       (handleOk : Nat → ParsedToolCall → Bool) (done fuel : Nat)
       (content : String) (pc : ParsedToolCall),
       responses done = some content → loopStep jp content = .invoke pc →
       (handleOk done pc && (pc.toolName == "respond_to_user")) = true →
       llmLoopGo jp responses handleOk done (fuel + 1) =
         (done + 1, .respondSuccess)) := by
  refine ⟨?_, ?_, llmLoopGo_stops_on_respond⟩
  · intro jp responses handleOk
    constructor
    · have h := llmLoopGo_le jp responses handleOk maxIterations 0
      simpa [llmLoop] using h
    · rfl
  · intro jp responses handleOk hresp hno
    unfold llmLoop
    rw [llmLoopGo_exhausts jp responses handleOk hresp hno maxIterations 0]
    rfl

theorem llmLoop_iteration_cap_witness :
    llmLoop jpNone (fun _ => some "hi") (fun _ _ => false) =
      ⟨maxIterations, maxIterations, true, .maxIterationsReached⟩
  ∧ llmLoopGo jpNone (fun _ => some
      "<tool_call><respond_to_user><message>done</message></respond_to_user></tool_call>")
      (fun _ _ => true) 0 (49 + 1) = (0 + 1, .respondSuccess) := by
  constructor
  · exact llmLoop_iteration_cap.2.1 jpNone _ _ (fun n => rfl) (fun n pc => rfl)
  · exact llmLoop_iteration_cap.2.2 jpNone _ _ 0 49 _
      ⟨"respond_to_user", [("message", .vStr "done")]⟩ rfl (by decide) (by decide)

/-- C10 counterexample: for a `read_files` call with a `<paths>` wrapper, the
stored `paths` parameter is the list of path records, not the value
`parseParameterValue` produces for the raw trimmed text — so not every
non-`content` parameter's stored value goes through `parseParameterValue`. -/
theorem read_files_paths_bypass :
    parseXmlToolCall jpNone
      "<tool_call><read_files><paths><path>a</path></paths></read_files></tool_call>" =
      some ⟨"read_files", [("paths", .vPathList ["a"])]⟩
  ∧ parseParameterValue jpNone "<path>a</path>" = .vStr "<path>a</path>"
  ∧ Value.vPathList ["a"] ≠ Value.vStr "<path>a</path>" := by
  refine ⟨by decide, by decide, by decide⟩

/-- C10 (amended): the `content` parameter is exempt from value decoding —
its stored value is the raw trimmed text with no conversion and no
unescaping — while every other parameter's stored value is produced by
`parseParameterValue` on its trimmed text, except that a `read_files` call
containing a `<paths>` wrapper has its `paths` parameter overwritten with the
extracted list of path records. -/
theorem content_param_exemption :
    (∀ (jp : JsonParser) (ws1 name ws2 post v : Str),
       ws1.all isSpaceChar = true → name ≠ [] → name.all isWordChar = true →
       ws2.all isSpaceChar = true →
       earlyFireFree (closeCheck name) (paramBlockL "content".toList v)
         (closeTag name ++ (ws2 ++ (closeTC ++ post))) = true →
       earlyFireFree (dropLit (closeTag "content".toList)) v
         (closeTag "content".toList) = true →
       (String.mk name = "read_files"
         && containsSub openPaths (paramBlockL "content".toList v)) = false →
       parseXmlToolCall jp
         (String.mk (mkBlockL ws1 name (paramBlockL "content".toList v) ws2 post)) =
         some ⟨String.mk name, [("content", .vStr (String.mk (trimL v)))]⟩)
  ∧ (∀ (jp : JsonParser) (ws1 name ws2 post q v : Str),
       ws1.all isSpaceChar = true → name ≠ [] → name.all isWordChar = true →
       ws2.all isSpaceChar = true →
       earlyFireFree (closeCheck name) (paramBlockL q v)
         (closeTag name ++ (ws2 ++ (closeTC ++ post))) = true →
       q ≠ [] → q.all isWordChar = true →
       earlyFireFree (dropLit (closeTag q)) v (closeTag q) = true →
       String.mk q ≠ "content" →
       (String.mk name = "read_files"
         && containsSub openPaths (paramBlockL q v)) = false →
       parseXmlToolCall jp
         (String.mk (mkBlockL ws1 name (paramBlockL q v) ws2 post)) =
         some ⟨String.mk name,
           [(String.mk q, parseParameterValue jp (String.mk (trimL v)))]⟩) := by
  constructor
  · intro jp ws1 name ws2 post v h1 h2 h3 h4 h5 h6 h7
    rw [parseXmlToolCall_wellformed jp ws1 name _ ws2 post h1 h2 h3 h4 h5,
      assembleParams_single jp (String.mk name) "content".toList v
        (by decide) (by decide) h6 h7]
    have hc : String.mk "content".toList = "content" := by decide
    simp [hc]
  · intro jp ws1 name ws2 post q v h1 h2 h3 h4 h5 h6 h7 h8 h9 h10
    rw [parseXmlToolCall_wellformed jp ws1 name _ ws2 post h1 h2 h3 h4 h5,
      assembleParams_single jp (String.mk name) q v h6 h7 h8 h10]
    simp [h9]

theorem content_param_exemption_witness :
    parseXmlToolCall jpNone (String.mk (mkBlockL [] "write_to_file".toList
        (paramBlockL "content".toList "a\\nb".toList) [] [])) =
      some ⟨String.mk "write_to_file".toList,
        [("content", .vStr (String.mk (trimL "a\\nb".toList)))]⟩
  ∧ parseXmlToolCall jpNone (String.mk (mkBlockL [] "write_to_file".toList
        (paramBlockL "path".toList " 12 ".toList) [] [])) =
      some ⟨String.mk "write_to_file".toList,
        [(String.mk "path".toList,
          parseParameterValue jpNone (String.mk (trimL " 12 ".toList)))]⟩ := by
  constructor
  · exact content_param_exemption.1 jpNone [] _ [] [] _
      (by decide) (by decide) (by decide) (by decide) (by decide) (by decide)
      (by decide)
  · exact content_param_exemption.2 jpNone [] _ [] [] _ _
      (by decide) (by decide) (by decide) (by decide) (by decide) (by decide)
      (by decide) (by decide) (by decide) (by decide)

end Minoc
